import Mathlib

/-!
Verification of the data-assimilation forcing pipeline in
src/src/model_DAforcing.py (t-route).  Shallow embedding: numpy NaN /
missing values are modelled as `none`, present floating-point readings as
rationals, datetimes as integer (or natural) second / hour counts.
-/

namespace DAForcing

/-! ## Observation QC (`_read_timeslice_files`, lines 229-237) -/

/-- Model of the QC step of `_read_timeslice_files` (lines 231-237) applied to
one observation record.  The raw discharge quality is divided by 100, then
four `.loc` masks null out the discharge in sequence: normalized quality < 0,
normalized quality > 1, normalized quality < qc_threshold, and discharge <= 0.
A numpy comparison against an already-nulled value (NaN) is false, which the
`Option.bind` in the final mask reproduces. -/
def qcDischarge (qcThreshold rawQuality : ℚ) (discharge : Option ℚ) : Option ℚ :=
  let q := rawQuality / 100
  let d1 : Option ℚ := if q < 0 then none else discharge
  let d2 : Option ℚ := if q > 1 then none else d1
  let d3 : Option ℚ := if q < qcThreshold then none else d2
  d3.bind (fun x => if x ≤ 0 then none else some x)

/-! ## Bounded interpolation (`_interpolate_one`, lines 282-293)

`_interpolate_one` runs `df.resample('min').interpolate(limit=L,
limit_direction='both').resample(frequency).asfreq()`.  A station column on
the minute grid is a `List (Option ℚ)`.  pandas linear interpolation
(pandas/core/missing.py) computes fill values with np.interp — linear between
the two nearest valid neighbors, clamped flat to the nearest valid value
outside the observed range — and then re-inserts NaN at every position
returned by `_interp_limit(invalid, L, L)`: the positions whose whole window
[i-L, i+L] is invalid, i.e. positions with no valid sample within L on either
side. -/

/-- Sample stored at minute position i (out-of-range positions are missing). -/
def valueAt (xs : List (Option ℚ)) (i : Nat) : Option ℚ := xs.getD i none

/-- Position i holds an observed (non-NaN) sample. -/
def isValidAt (xs : List (Option ℚ)) (i : Nat) : Bool := (valueAt xs i).isSome

/-- Positions of the valid samples, in ascending order. -/
def validIndices (xs : List (Option ℚ)) : List Nat :=
  (List.range xs.length).filter (fun i => isValidAt xs i)

/-- Nearest valid position at or before i. -/
def prevValid (xs : List (Option ℚ)) (i : Nat) : Option Nat :=
  ((validIndices xs).filter (fun j => decide (j ≤ i))).getLast?

/-- Nearest valid position at or after i. -/
def nextValid (xs : List (Option ℚ)) (i : Nat) : Option Nat :=
  ((validIndices xs).filter (fun j => decide (i ≤ j))).head?

/-- Fill value np.interp produces at position i: linear between the nearest
valid neighbors, flat (clamped to the nearest valid value) when valid samples
exist on one side only, missing when the series has no valid sample. -/
def interpValue (xs : List (Option ℚ)) (i : Nat) : Option ℚ :=
  match prevValid xs i, nextValid xs i with
  | some j, some k =>
      match valueAt xs j, valueAt xs k with
      | some vj, some vk =>
          if j = k then some vj
          else some (vj + (vk - vj) * (((i : ℚ) - (j : ℚ)) / ((k : ℚ) - (j : ℚ))))
      | _, _ => none
  | some j, none => valueAt xs j
  | none, some k => valueAt xs k
  | none, none => none

/-- pandas `_interp_limit(invalid, L, L)` membership (limit_direction='both'):
a missing sample stays missing iff no valid sample lies within L positions on
either side, i.e. the whole window [i-L, i+L] is invalid. -/
def preserveNaN (L : Nat) (xs : List (Option ℚ)) (i : Nat) : Bool :=
  (validIndices xs).all (fun j => decide (j < i - L) || decide (i + L < j))

/-- Result of bounded interpolation at one minute position. -/
def interpAt (L : Nat) (xs : List (Option ℚ)) (i : Nat) : Option ℚ :=
  match valueAt xs i with
  | some v => some v
  | none => if preserveNaN L xs i then none else interpValue xs i

/-- Model of `.interpolate(limit=L, limit_direction='both')` on one minute-grid
station column. -/
def interpolateLimitBoth (L : Nat) (xs : List (Option ℚ)) : List (Option ℚ) :=
  (List.range xs.length).map (fun i => interpAt L xs i)

/-- Model of `.resample(frequency).asfreq()` after the minute interpolation:
keep every freqMin-th minute sample (the minute grid is aligned with the
target grid in the pipeline, where the native timeslice instants sit on
15-minute marks). -/
def downsampleEvery (freqMin : Nat) (xs : List (Option ℚ)) : List (Option ℚ) :=
  (List.range xs.length).filterMap
    (fun i => if i % freqMin = 0 then some (valueAt xs i) else none)

/-- Model of `_interpolate_one` (lines 282-293) on one station column given on
the minute grid. -/
def interpolateOne (L freqMin : Nat) (xs : List (Option ℚ)) : List (Option ℚ) :=
  downsampleEvery freqMin (interpolateLimitBoth L xs)

/-! ## Chunked interpolation (`_read_timeslice_files`, lines 252-275)

Stations (columns) are cut into consecutive 200-column chunks; each chunk is
interpolated by an independent joblib job and `np.concatenate(..., axis=1)`
reassembles the chunk results in dispatch order, whatever the worker count. -/

/-- Chunk upper bound: `stop = i+step if (i+step-1) < ncols else ncols`
(lines 260-263). -/
def chunkStop (ncols step i : Nat) : Nat :=
  if i + step - 1 < ncols then i + step else ncols

/-- Column slice `iloc[:, start:stop]` of the station-column list. -/
def colSlice (cols : List (List (Option ℚ))) (start stop : Nat) :
    List (List (Option ℚ)) :=
  (cols.drop start).take (stop - start)

/-- The dispatch loop `for i in range(0, ncols, step)` (line 257), applying g
to each column of each chunk and concatenating chunk results in order. -/
def chunkLoop (g : List (Option ℚ) → List (Option ℚ))
    (cols : List (List (Option ℚ))) (step i : Nat) : List (List (Option ℚ)) :=
  if h : i < cols.length ∧ 0 < step then
    (colSlice cols i (chunkStop cols.length step i)).map g
      ++ chunkLoop g cols step (i + step)
  else []
termination_by cols.length - i
decreasing_by omega

/-- Model of the chunked, parallel interpolation of `_read_timeslice_files`
(lines 252-275): step = 200 columns; cpuPool is the joblib worker count, which
does not influence the assembled value since joblib returns job results in
dispatch order. -/
def chunkedInterpolate (cpuPool L freqMin : Nat)
    (cols : List (List (Option ℚ))) : List (List (Option ℚ)) :=
  chunkLoop (interpolateOne L freqMin) cols 200 0

/-! ## Forecast file selection (`_read_timeseries_files`, lines 295-311)

A directory entry splits on '.' into (Datetime, resolution, ID,
'RFCTimeSeries', extension).  Datetime tokens are modelled by the instants
they parse to (strptime on the fixed '%Y-%m-%d_%H' format is injective and
monotone), as natural hour counts. -/

/-- A directory entry already split on '.' (line 300). -/
structure FileName where
  dateTok : Nat
  resTok : String
  idTok : String
  kindTok : String
  extTok : String
  deriving DecidableEq

/-- The columns the selector keeps from a parsed row: `[['ID','Datetime']]`
(line 301); the resolution token is discarded here. -/
structure ForecastFile where
  issue : Nat
  station : String
  deriving DecidableEq

/-- Projection of a directory entry onto the retained columns. -/
def parseName (n : FileName) : ForecastFile := ⟨n.dateTok, n.idTok⟩

/-- Retention filter `df[df['Datetime'].isin(timeseries_dates)]` (line 301). -/
def retainedFiles (cands : List Nat) (files : List ForecastFile) :
    List ForecastFile :=
  files.filter (fun f => decide (f.issue ∈ cands))

/-- Per-station maximum of the retained issue instants, as the groupby
aggregation computes it. -/
def stationMaxIssue (retained : List ForecastFile) (s : String) : Nat :=
  ((retained.filter (fun f => decide (f.station = s))).map
    (fun f => f.issue)).foldl Nat.max 0

/-- Model of `df.groupby('ID').max()` over the retained rows (lines 301-305):
one (station, latest issue) pair per station occurring among the retained
files. -/
def selectLatest (cands : List Nat) (files : List ForecastFile) :
    List (String × Nat) :=
  ((retainedFiles cands files).map (fun f => f.station)).dedup.map
    (fun s => (s, stationMaxIssue (retainedFiles cands files) s))

/-- Model of the opened-file list
`(df['Datetime'] + '.60min.' + df['ID'] + '.RFCTimeSeries.ncdf')` (line 308):
the name is rebuilt from the selected (station, issue) pair with a fixed
'60min' resolution token and 'ncdf' extension. -/
def openedNames (cands : List Nat) (dir : List FileName) : List FileName :=
  (selectLatest cands (dir.map parseName)).map
    (fun p => ⟨p.2, "60min", p.1, "RFCTimeSeries", "ncdf"⟩)

/-! ## Point-observation window planner (`DAforcing_model.__init__`, lines 50-61)

Instants are integer seconds; `timedelta(hours=h)` is 3600*h seconds and the
loop step `timedelta(minutes=15)` is 900 seconds.  The emitted strings render
these instants with the fixed strftime pattern '%Y-%m-%d_%H:%M:%S', a monotone
injective encoding that the embedding leaves to the presentation layer. -/

/-- The `while timeslice_start <= timeslice_end` accumulation loop
(lines 59-61), stepping by 15 minutes. -/
def windowLoop (stop cur : Int) : List Int :=
  if cur ≤ stop then cur :: windowLoop stop (cur + 900) else []
termination_by (stop + 1 - cur).toNat
decreasing_by omega

/-- Model of the timeslice-date planning (lines 55-61):
start - lookback hours through start + dt*nts seconds, stepped by 15 minutes. -/
def planPointWindow (start lookbackHrs dtSecs nts : Int) : List Int :=
  windowLoop (start + dtSecs * nts) (start - 3600 * lookbackHrs)

/-! ## Last-observation extraction (`_read_lastobs_file`, lines 340-394)

One gage column of the discharge table, with the sentinel -9999.0 already
replaced by missing; the time axis is positions 0 .. n-1 (the timeInd
coordinate), so `ds['timeInd'].values[-1]` is n-1. -/

/-- `pd.Series.last_valid_index` on one gage column: the last position that
holds a non-missing value. -/
def lastValidIndex (col : List (Option ℚ)) : Option Nat :=
  ((List.range col.length).filter (fun i => (col.getD i none).isSome)).getLast?

/-- `np.nan_to_num(last_obs_index, nan=last_ts).astype(int)` (line 367): a gage
with no valid observation defaults to the final axis position. -/
def lastObsIndex (lastTs : Nat) (col : List (Option ℚ)) : Nat :=
  (lastValidIndex col).getD lastTs

/-- The per-gage record the extractor emits (lines 371-372): the chosen axis
position and `df_discharge.iloc[idx, i]`, the discharge stored there. -/
def lastObsEntry (lastTs : Nat) (col : List (Option ℚ)) : Nat × Option ℚ :=
  (lastObsIndex lastTs col, col.getD (lastObsIndex lastTs col) none)

/-- Model of lines 382-383: `(lastobs_times - ref_time).total_seconds()`
followed by `lastobs_times - time_shift`, vectorized over the gages. -/
def lastObsTimes (obsTimes : List Int) (refTime timeShift : Int) : List Int :=
  (obsTimes.map (fun t => t - refTime)).map (fun t => t - timeShift)

/-! ## Helper lemmas: window loop -/

theorem windowLoop_cons (stop cur : Int) (h : cur ≤ stop) :
    windowLoop stop cur = cur :: windowLoop stop (cur + 900) := by
  rw [windowLoop]
  simp [h]

theorem windowLoop_nil (stop cur : Int) (h : ¬ cur ≤ stop) :
    windowLoop stop cur = [] := by
  rw [windowLoop]
  simp [h]

theorem windowLoop_head (stop cur : Int) (h : cur ≤ stop) :
    (windowLoop stop cur).head? = some cur := by
  rw [windowLoop_cons stop cur h]
  rfl

theorem windowLoop_chain (stop : Int) :
    ∀ (n : Nat) (cur : Int), (stop + 1 - cur).toNat ≤ n →
      List.Chain' (fun a b => b = a + 900) (windowLoop stop cur) := by
  intro n
  induction n with
  | zero =>
    intro cur hn
    rw [windowLoop_nil stop cur (by omega)]
    exact List.chain'_nil
  | succ n ih =>
    intro cur hn
    by_cases h : cur ≤ stop
    · rw [windowLoop_cons stop cur h]
      by_cases h2 : cur + 900 ≤ stop
      · exact List.Chain'.cons' (ih (cur + 900) (by omega))
          (fun y hy => by rw [windowLoop_head stop (cur + 900) h2] at hy; simpa using hy.symm)
      · rw [windowLoop_nil stop (cur + 900) h2]
        simp
    · rw [windowLoop_nil stop cur h]
      exact List.chain'_nil

theorem windowLoop_last (stop : Int) :
    ∀ (n : Nat) (cur d : Int), (stop + 1 - cur).toNat ≤ n → cur ≤ stop →
      (windowLoop stop cur).getLastD d ≤ stop ∧
      stop < (windowLoop stop cur).getLastD d + 900 ∧
      cur ≤ (windowLoop stop cur).getLastD d := by
  intro n
  induction n with
  | zero => intro cur d hn hc; omega
  | succ n ih =>
    intro cur d hn hc
    rw [windowLoop_cons stop cur hc]
    by_cases h2 : cur + 900 ≤ stop
    · have hrec := ih (cur + 900) cur (by omega) h2
      have hcons : (cur :: windowLoop stop (cur + 900)).getLastD d
          = (windowLoop stop (cur + 900)).getLastD cur := by
        cases hw : windowLoop stop (cur + 900) with
        | nil => rw [windowLoop_cons stop (cur + 900) h2] at hw; simp at hw
        | cons b t => rfl
      rw [hcons]
      exact ⟨hrec.1, hrec.2.1, by omega⟩
    · rw [windowLoop_nil stop (cur + 900) h2]
      have hone : (cur :: ([] : List Int)).getLastD d = cur := rfl
      rw [hone]
      omega

theorem windowLoop_grid_le_last (stop : Int) :
    ∀ (k : Nat) (cur d : Int), cur + 900 * k ≤ stop →
      cur + 900 * k ≤ (windowLoop stop cur).getLastD d := by
  intro k
  induction k with
  | zero =>
    intro cur d hk
    have hc : cur ≤ stop := by omega
    have := windowLoop_last stop (stop + 1 - cur).toNat cur d (le_refl _) hc
    omega
  | succ k ih =>
    intro cur d hk
    have hstep : cur + 900 ≤ stop := by
      have : (0 : Int) ≤ 900 * k := by positivity
      push_cast at hk
      omega
    have hc : cur ≤ stop := by omega
    rw [windowLoop_cons stop cur hc]
    have hcons : (cur :: windowLoop stop (cur + 900)).getLastD d
        = (windowLoop stop (cur + 900)).getLastD cur := by
      cases hw : windowLoop stop (cur + 900) with
      | nil => rw [windowLoop_cons stop (cur + 900) hstep] at hw; simp at hw
      | cons b t => rfl
    rw [hcons]
    have := ih (cur + 900) cur (by push_cast; push_cast at hk; omega)
    push_cast at this ⊢
    omega

/-! ## Helper lemmas: bounded interpolation -/

theorem mem_validIndices (xs : List (Option ℚ)) (j : Nat) :
    j ∈ validIndices xs ↔ j < xs.length ∧ isValidAt xs j = true := by
  unfold validIndices
  rw [List.mem_filter, List.mem_range]

theorem lt_length_of_isValidAt (xs : List (Option ℚ)) (j : Nat)
    (h : isValidAt xs j = true) : j < xs.length := by
  by_contra hge
  unfold isValidAt valueAt at h
  rw [List.getD_eq_getElem?_getD, List.getElem?_eq_none (by omega)] at h
  simp at h

theorem interpolate_getD (L : Nat) (xs : List (Option ℚ)) (i : Nat)
    (h : i < xs.length) :
    valueAt (interpolateLimitBoth L xs) i = interpAt L xs i := by
  unfold interpolateLimitBoth valueAt
  rw [List.getD_eq_getElem?_getD, List.getElem?_map]
  simp [List.getElem?_range, h]

theorem preserveNaN_eq_true (L : Nat) (xs : List (Option ℚ)) (i : Nat)
    (h : ∀ j, isValidAt xs j = true → j + L < i ∨ i + L < j) :
    preserveNaN L xs i = true := by
  unfold preserveNaN
  rw [List.all_eq_true]
  intro j hj
  rw [mem_validIndices] at hj
  rcases h j hj.2 with hl | hr
  · simp only [Bool.or_eq_true, decide_eq_true_eq]
    omega
  · simp only [Bool.or_eq_true, decide_eq_true_eq]
    omega

theorem preserveNaN_eq_false (L : Nat) (xs : List (Option ℚ)) (i j : Nat)
    (hj : isValidAt xs j = true) (h1 : i ≤ j + L) (h2 : j ≤ i + L) :
    preserveNaN L xs i = false := by
  unfold preserveNaN
  rw [List.all_eq_false]
  refine ⟨j, (mem_validIndices xs j).mpr ⟨lt_length_of_isValidAt xs j hj, hj⟩, ?_⟩
  simp only [Bool.or_eq_true, decide_eq_true_eq]
  omega

theorem prevValid_spec (xs : List (Option ℚ)) (i j : Nat)
    (h : prevValid xs i = some j) : isValidAt xs j = true ∧ j ≤ i := by
  unfold prevValid at h
  obtain ⟨hne, hx⟩ := List.mem_getLast?_eq_getLast (Option.mem_def.mpr h)
  have hmem := hx ▸ List.getLast_mem hne
  rw [List.mem_filter, mem_validIndices] at hmem
  exact ⟨hmem.1.2, by simpa using hmem.2⟩

theorem nextValid_spec (xs : List (Option ℚ)) (i j : Nat)
    (h : nextValid xs i = some j) : isValidAt xs j = true ∧ i ≤ j := by
  unfold nextValid at h
  have hmem := List.mem_of_mem_head? (Option.mem_def.mpr h)
  rw [List.mem_filter, mem_validIndices] at hmem
  exact ⟨hmem.1.2, by simpa using hmem.2⟩

theorem prevValid_isSome (xs : List (Option ℚ)) (i j : Nat)
    (hj : isValidAt xs j = true) (hji : j ≤ i) : (prevValid xs i).isSome = true := by
  unfold prevValid
  rw [Option.isSome_iff_ne_none, Ne, List.getLast?_eq_none_iff, List.filter_eq_nil_iff]
  intro hnil
  have hm := hnil j ((mem_validIndices xs j).mpr ⟨lt_length_of_isValidAt xs j hj, hj⟩)
  simp [hji] at hm

theorem nextValid_isSome (xs : List (Option ℚ)) (i j : Nat)
    (hj : isValidAt xs j = true) (hij : i ≤ j) : (nextValid xs i).isSome = true := by
  unfold nextValid
  rw [Option.isSome_iff_ne_none, Ne, List.head?_eq_none_iff, List.filter_eq_nil_iff]
  intro hnil
  have hm := hnil j ((mem_validIndices xs j).mpr ⟨lt_length_of_isValidAt xs j hj, hj⟩)
  simp [hij] at hm

theorem interpValue_isSome (xs : List (Option ℚ)) (i : Nat)
    (hex : ∃ j, isValidAt xs j = true) : (interpValue xs i).isSome = true := by
  obtain ⟨j, hj⟩ := hex
  unfold interpValue
  rcases hp : prevValid xs i with _ | jp
  · rcases hn : nextValid xs i with _ | jn
    · rcases le_total j i with hji | hij
      · have := prevValid_isSome xs i j hj hji
        rw [hp] at this
        simp at this
      · have := nextValid_isSome xs i j hj hij
        rw [hn] at this
        simp at this
    · have hv := (nextValid_spec xs i jn hn).1
      unfold isValidAt at hv
      simpa using hv
  · rcases hn : nextValid xs i with _ | jn
    · have hv := (prevValid_spec xs i jp hp).1
      unfold isValidAt at hv
      simpa using hv
    · have hvp := (prevValid_spec xs i jp hp).1
      have hvn := (nextValid_spec xs i jn hn).1
      unfold isValidAt at hvp hvn
      obtain ⟨vp, hvp2⟩ := Option.isSome_iff_exists.mp hvp
      obtain ⟨vn, hvn2⟩ := Option.isSome_iff_exists.mp hvn
      dsimp only
      rw [hvp2, hvn2]
      dsimp only
      split <;> rfl

/-! ## Helper lemmas: chunk loop -/

theorem chunkLoop_eq_map (g : List (Option ℚ) → List (Option ℚ)) (step : Nat)
    (hs : 0 < step) (cols : List (List (Option ℚ))) :
    ∀ (n i : Nat), cols.length - i ≤ n →
      chunkLoop g cols step i = (cols.drop i).map g := by
  intro n
  induction n with
  | zero =>
    intro i hn
    rw [chunkLoop, dif_neg (by omega), List.drop_eq_nil_of_le (by omega), List.map_nil]
  | succ n ih =>
    intro i hn
    by_cases h : i < cols.length
    · rw [chunkLoop, dif_pos ⟨h, hs⟩, ih (i + step) (by omega)]
      unfold colSlice chunkStop
      by_cases hc : i + step - 1 < cols.length
      · rw [if_pos hc]
        have hdd : cols.drop (i + step) = (cols.drop i).drop step := by
          rw [List.drop_drop]
          try congr 1
          try omega
        rw [hdd, show i + step - i = step by omega, ← List.map_append,
          List.take_append_drop]
      · rw [if_neg hc]
        rw [List.drop_eq_nil_of_le (show cols.length ≤ i + step by omega)]
        rw [List.take_of_length_le (List.length_drop i cols).le]
        simp
    · rw [chunkLoop, dif_neg (by omega), List.drop_eq_nil_of_le (by omega), List.map_nil]

/-! ## Claim theorems -/

/-- Claim C1: the QC step nulls the discharge of an observation record exactly
when the normalized quality (raw quality divided by 100) is < 0, or > 1, or
below the configured threshold, or the discharge itself is <= 0; a record
passing all four tests keeps its discharge unchanged, and an already-missing
discharge stays missing. -/
theorem qc_discharge_characterization (th q d : ℚ) :
    qcDischarge th q (some d)
      = (if q / 100 < 0 ∨ q / 100 > 1 ∨ q / 100 < th ∨ d ≤ 0 then none
         else some d)
    ∧ qcDischarge th q none = none := by
  constructor
  · by_cases h1 : q / 100 < 0 <;> by_cases h2 : q / 100 > 1 <;>
      by_cases h3 : q / 100 < th <;> by_cases h4 : d ≤ 0 <;>
      simp [qcDischarge, h1, h2, h3, h4]
  · simp only [qcDischarge]
    split_ifs <;> rfl

/-- Claim C5 (amended): for every start instant, non-negative lookback and
non-negative horizon dt*nts, the planned window starts exactly at
start - lookback hours, successive entries are exactly 900 seconds (15
minutes) apart (hence strictly increasing), the final entry is the greatest
grid instant not exceeding start + horizon (it equals start + horizon exactly
when 900 divides lookback*3600 + dt*nts), and first <= start <= last. -/
theorem plan_point_window_spec (start lb dtSecs nts : Int)
    (hlb : 0 ≤ lb) (hh : 0 ≤ dtSecs * nts) :
    (planPointWindow start lb dtSecs nts).head? = some (start - 3600 * lb)
    ∧ List.Chain' (fun a b => b = a + 900) (planPointWindow start lb dtSecs nts)
    ∧ (planPointWindow start lb dtSecs nts).getLastD 0 ≤ start + dtSecs * nts
    ∧ start + dtSecs * nts < (planPointWindow start lb dtSecs nts).getLastD 0 + 900
    ∧ start - 3600 * lb ≤ start
    ∧ start ≤ (planPointWindow start lb dtSecs nts).getLastD 0 := by
  have hfs : start - 3600 * lb ≤ start + dtSecs * nts := by linarith
  unfold planPointWindow
  refine ⟨windowLoop_head _ _ hfs, windowLoop_chain _ _ _ (le_refl _), ?_, ?_, by linarith, ?_⟩
  · exact (windowLoop_last _ _ _ 0 (le_refl _) hfs).1
  · exact (windowLoop_last _ _ _ 0 (le_refl _) hfs).2.1
  · have hgrid := windowLoop_grid_le_last (start + dtSecs * nts) (4 * lb).toNat
      (start - 3600 * lb) 0
    have hcast : ((4 * lb).toNat : Int) = 4 * lb := Int.toNat_of_nonneg (by linarith)
    rw [hcast] at hgrid
    have := hgrid (by linarith)
    linarith

/-- Claim C5 witness: the planner evaluated at start = 0, lookback 1 hour,
dt = 900, nts = 4. -/
theorem plan_point_window_spec_witness :
    (0 : ℤ) ≤ 1 ∧ (0 : ℤ) ≤ 900 * 4 ∧
    ((planPointWindow 0 1 900 4).head? = some (0 - 3600 * 1)
    ∧ List.Chain' (fun a b => b = a + 900) (planPointWindow 0 1 900 4)
    ∧ (planPointWindow 0 1 900 4).getLastD 0 ≤ 0 + 900 * 4
    ∧ (0 : ℤ) + 900 * 4 < (planPointWindow 0 1 900 4).getLastD 0 + 900
    ∧ (0 : ℤ) - 3600 * 1 ≤ 0
    ∧ (0 : ℤ) ≤ (planPointWindow 0 1 900 4).getLastD 0) :=
  ⟨by norm_num, by norm_num, plan_point_window_spec 0 1 900 4 (by norm_num) (by norm_num)⟩

/-- Claim C5 counterexample: with start = 0, lookback 0 and horizon
dt*nts = 1 second, the emitted window is [0], whose last element is 0, not
start + horizon = 1: the claimed "last element equals start + horizon" fails
whenever 900 does not divide the window span. -/
theorem plan_point_window_last_counterexample :
    planPointWindow 0 0 1 1 = [0] ∧ ((0 : ℤ) + 1 * 1 ≠ 0) := by
  constructor
  · unfold planPointWindow
    rw [show (0 : ℤ) + 1 * 1 = 1 by norm_num, show (0 : ℤ) - 3600 * 0 = 0 by norm_num]
    rw [windowLoop_cons 1 0 (by norm_num)]
    rw [show (0 : ℤ) + 900 = 900 by norm_num]
    rw [windowLoop_nil 1 900 (by norm_num)]
  · norm_num

/-- Claim C6 (amended): when the computed window end precedes the window start
(negative lookback or horizon), the planner does not fail: the while loop body
never runs and the empty timestamp sequence is returned.  No
InvalidWindowError (or any other validation failure) exists in the code. -/
theorem plan_point_window_empty (start lb dtSecs nts : Int)
    (h : start + dtSecs * nts < start - 3600 * lb) :
    planPointWindow start lb dtSecs nts = [] :=
  windowLoop_nil _ _ (by linarith)

/-- Claim C6 witness: lookback -1 hours, horizon 0: end (= 0) precedes start
(= 3600) and the planner returns the empty list. -/
theorem plan_point_window_empty_witness :
    (0 : ℤ) + 0 * 0 < 0 - 3600 * (-1) ∧ planPointWindow 0 (-1) 0 0 = [] :=
  ⟨by norm_num, plan_point_window_empty 0 (-1) 0 0 (by norm_num)⟩

/-- Claim C6 counterexample: with lookback_hours = -1 and horizon 0 the window
end (0) precedes the window start (3600), yet the planner raises nothing and
returns a result, the empty sequence — no InvalidWindowError exists. -/
theorem plan_point_window_no_error_counterexample :
    planPointWindow 0 (-1) 0 0 = [] := by
  unfold planPointWindow
  exact windowLoop_nil _ _ (by norm_num)

/-- Claim C7: for a gage whose discharge series is entirely missing, the
last-observation extractor totally evaluates (never raises): the default
branch selects the final index of the time axis and the emitted record holds
the (missing) value stored at that final index. -/
theorem lastobs_all_missing (col : List (Option ℚ)) (h : ∀ x ∈ col, x = none) :
    lastObsEntry (col.length - 1) col = (col.length - 1, none) := by
  have hnone : ∀ i, col.getD i none = none := by
    intro i
    rw [List.getD_eq_getElem?_getD]
    cases hc : col[i]? with
    | none => rfl
    | some v =>
      have hi : i < col.length := by
        by_contra hge
        rw [List.getElem?_eq_none (by omega)] at hc
        exact Option.noConfusion hc
      have hv : v ∈ col := by
        rw [List.getElem?_eq_getElem hi] at hc
        have hvc : col[i] = v := by injection hc
        rw [← hvc]
        exact List.getElem_mem hi
      rw [h v hv]
      rfl
  have hvi : lastValidIndex col = none := by
    unfold lastValidIndex
    rw [List.getLast?_eq_none_iff, List.filter_eq_nil_iff]
    intro i _
    rw [hnone i]
    simp
  unfold lastObsEntry lastObsIndex
  rw [hvi, hnone]
  rfl

/-- Claim C7 witness: a three-sample all-missing gage series yields the record
(final index 2, missing discharge). -/
theorem lastobs_all_missing_witness :
    (∀ x ∈ ([none, none, none] : List (Option ℚ)), x = none) ∧
      lastObsEntry 2 ([none, none, none] : List (Option ℚ)) = (2, none) :=
  ⟨by decide, lastobs_all_missing [none, none, none] (by decide)⟩

/-- Claim C8: for each gage the extractor computes time_since_lastobs in
seconds as (observation instant - reference instant) - time_shift, the
reference instant being the file's modelTimeAtOutput attribute and the default
shift 0; the result is negative exactly when the shift-adjusted observation
instant precedes the reference instant. -/
theorem lastobs_time_since (obsTimes : List Int) (refTime timeShift : Int)
    (i : Nat) (h : i < obsTimes.length) :
    (lastObsTimes obsTimes refTime timeShift).getD i 0
        = (obsTimes.getD i 0 - refTime) - timeShift
    ∧ ((lastObsTimes obsTimes refTime timeShift).getD i 0 < 0
        ↔ obsTimes.getD i 0 - timeShift < refTime)
    ∧ lastObsTimes obsTimes refTime 0
        = obsTimes.map (fun t => t - refTime) := by
  have hv : (lastObsTimes obsTimes refTime timeShift).getD i 0
      = (obsTimes.getD i 0 - refTime) - timeShift := by
    unfold lastObsTimes
    rw [List.getD_eq_getElem?_getD, List.getElem?_map, List.getElem?_map,
      List.getElem?_eq_getElem h, List.getD_eq_getElem?_getD,
      List.getElem?_eq_getElem h]
    rfl
  refine ⟨hv, by rw [hv]; omega, ?_⟩
  unfold lastObsTimes
  simp

/-- Claim C8 witness: a single gage observed at instant 100 against reference
instant 50 with shift 10 gives time_since_lastobs = 40. -/
theorem lastobs_time_since_witness :
    0 < ([100] : List Int).length ∧
    ((lastObsTimes [100] 50 10).getD 0 0 = (([100] : List Int).getD 0 0 - 50) - 10
    ∧ ((lastObsTimes [100] 50 10).getD 0 0 < 0
        ↔ ([100] : List Int).getD 0 0 - 10 < 50)
    ∧ lastObsTimes [100] 50 0 = ([100] : List Int).map (fun t => t - 50)) :=
  ⟨by norm_num, lastobs_time_since [100] 50 10 0 (by norm_num)⟩

/-- Claim C2 counterexample: with the default limit L = 59, a run of exactly
L + 1 = 60 consecutive missing minute samples between two observed samples is
filled completely by `_interpolate_one` (limit_direction='both' fills up to L
samples inward from each side, so interior gaps of up to 2L fill entirely):
no sample of the gap is missing in the output, refuting "a run of L+1 or more
consecutive missing samples is never completely filled". -/
theorem interp_gap_limit_counterexample :
    ((interpolateOne 59 1
        (([some 0] ++ List.replicate 60 none ++ [some 61]) : List (Option ℚ))).all
      (fun y => y.isSome)) = true := by
  decide

/-- Claim C2 (amended): a run of 2L + 1 or more consecutive missing samples is
never completely filled by interpolation with limit L and
limit_direction='both': the sample L + 1 positions into the gap has no valid
sample within L on either side, so it is still missing in the interpolated
output.  (Runs of L + 1 up to 2L can fill completely, as the counterexample
shows.) -/
theorem interp_long_gap_keeps_missing (L : Nat) (xs : List (Option ℚ)) (p g : Nat)
    (hg : 2 * L + 1 ≤ g) (hlen : p + g < xs.length)
    (hgap : ∀ k, k < g → valueAt xs (p + 1 + k) = none) :
    valueAt (interpolateLimitBoth L xs) (p + L + 1) = none := by
  have hi : p + L + 1 < xs.length := by omega
  rw [interpolate_getD L xs _ hi]
  have hx : valueAt xs (p + L + 1) = none := by
    have hh := hgap L (by omega)
    rw [show p + 1 + L = p + L + 1 by omega] at hh
    exact hh
  have hpres : preserveNaN L xs (p + L + 1) = true := by
    apply preserveNaN_eq_true
    intro j hj
    by_contra hcon
    push_neg at hcon
    have hk := hgap (j - (p + 1)) (by omega)
    rw [show p + 1 + (j - (p + 1)) = j by omega] at hk
    unfold isValidAt at hj
    rw [hk] at hj
    simp at hj
  simp [interpAt, hx, hpres]

/-- Claim C2 amended-theorem witness: limit 1, gap of 3 = 2*1 + 1 missing
samples between observed samples; the middle gap sample stays missing. -/
theorem interp_long_gap_witness :
    2 * 1 + 1 ≤ 3
    ∧ 0 + 3 < ([some 1, none, none, none, some 2] : List (Option ℚ)).length
    ∧ valueAt
        (interpolateLimitBoth 1 ([some 1, none, none, none, some 2] : List (Option ℚ)))
        2 = none :=
  ⟨by norm_num, by decide,
    interp_long_gap_keeps_missing 1 [some 1, none, none, none, some 2] 0 3
      (by norm_num) (by decide) (by decide)⟩

/-- Claim C3 counterexample: a station whose final minute samples are missing
(observed 10 at the start, then 15 missing minutes up to the series end) has
its trailing sample filled flat with the last observed value by
`_interpolate_one` with the default limit 59 and target frequency 15 minutes:
limit_direction='both' pads past the last observed data point, refuting
"interpolation never fills values past the last observed data point". -/
theorem interp_trailing_fill_counterexample :
    interpolateOne 59 15 (([some 10] ++ List.replicate 15 none) : List (Option ℚ))
      = [some 10, some 10] := by
  decide

/-- Claim C3 (amended): a trailing missing sample (at the end of the time
axis, hence with no valid right neighbor) is left missing by bounded
interpolation only when every valid sample lies more than L positions before
it; when some valid sample is within L positions, limit_direction='both'
fills the trailing sample (flat, from the last observed value) instead of
leaving it missing. -/
theorem interp_trailing_missing (L : Nat) (xs : List (Option ℚ)) (i : Nat)
    (hi : i + 1 = xs.length) (hm : valueAt xs i = none) :
    ((∀ j, isValidAt xs j = true → j + L < i) →
        valueAt (interpolateLimitBoth L xs) i = none)
    ∧ ((∃ j, isValidAt xs j = true ∧ i ≤ j + L) →
        (valueAt (interpolateLimitBoth L xs) i).isSome = true) := by
  have hil : i < xs.length := by omega
  constructor
  · intro hfar
    rw [interpolate_getD L xs i hil]
    have hpres : preserveNaN L xs i = true :=
      preserveNaN_eq_true L xs i (fun j hj => Or.inl (hfar j hj))
    simp [interpAt, hm, hpres]
  · rintro ⟨j, hj, hjl⟩
    have hjlen : j < xs.length := lt_length_of_isValidAt xs j hj
    have hpres : preserveNaN L xs i = false :=
      preserveNaN_eq_false L xs i j hj hjl (by omega)
    have hiv : (interpValue xs i).isSome = true := interpValue_isSome xs i ⟨j, hj⟩
    rw [interpolate_getD L xs i hil]
    simp [interpAt, hm, hpres, hiv]

/-- Claim C3 amended-theorem witness: series [5, missing] with limit 1: the
valid sample at position 0 is within the limit of the trailing position 1, so
the trailing sample is filled. -/
theorem interp_trailing_missing_witness :
    (1 + 1 = ([some 5, none] : List (Option ℚ)).length
      ∧ valueAt ([some 5, none] : List (Option ℚ)) 1 = none)
    ∧ (valueAt (interpolateLimitBoth 1 ([some 5, none] : List (Option ℚ))) 1).isSome
        = true :=
  ⟨⟨rfl, rfl⟩,
    (interp_trailing_missing 1 [some 5, none] 1 rfl rfl).2 ⟨0, rfl, by decide⟩⟩

/-- Claim C9: chunked interpolation equals unchunked column-wise
interpolation, independently of the worker-pool size: dispatching consecutive
200-column chunks and concatenating the chunk results in dispatch order
reproduces mapping the interpolation over all station columns at once, for
every cpu_pool value. -/
theorem chunked_interpolation_equivalence (cpuPool L freqMin : Nat)
    (cols : List (List (Option ℚ))) :
    chunkedInterpolate cpuPool L freqMin cols
      = cols.map (interpolateOne L freqMin) := by
  unfold chunkedInterpolate
  rw [chunkLoop_eq_map (interpolateOne L freqMin) 200 (by norm_num) cols
    cols.length 0 (by omega)]
  rw [List.drop_zero]

/-! ## Helper lemmas: groupby max -/

theorem foldl_max_init_le (l : List Nat) : ∀ a, a ≤ l.foldl Nat.max a := by
  induction l with
  | nil => intro a; simp
  | cons b t ih =>
    intro a
    rw [List.foldl_cons]
    exact le_trans (Nat.le_max_left a b) (ih (Nat.max a b))

theorem foldl_max_le (l : List Nat) : ∀ a x, x ∈ l → x ≤ l.foldl Nat.max a := by
  induction l with
  | nil => intro a x hx; cases hx
  | cons b t ih =>
    intro a x hx
    rw [List.foldl_cons]
    rcases List.mem_cons.mp hx with hxb | hxt
    · rw [hxb]
      exact le_trans (Nat.le_max_right a b) (foldl_max_init_le t (Nat.max a b))
    · exact ih (Nat.max a b) x hxt

theorem foldl_max_mem_or_init (l : List Nat) :
    ∀ a, l.foldl Nat.max a = a ∨ l.foldl Nat.max a ∈ l := by
  induction l with
  | nil => intro a; left; rfl
  | cons b t ih =>
    intro a
    rw [List.foldl_cons]
    rcases ih (Nat.max a b) with h | h
    · rw [h]
      have hconv : Nat.max a b = max a b := rfl
      rw [hconv]
      rcases Nat.le_total a b with hab | hba
      · right
        rw [max_eq_right hab]
        exact List.mem_cons_self b t
      · left
        exact max_eq_left hba
    · right; exact List.mem_cons_of_mem b h

theorem stationMaxIssue_attained (R : List ForecastFile) (s : String)
    (hex : ∃ f ∈ R, f.station = s) :
    (∃ f ∈ R, f.station = s ∧ f.issue = stationMaxIssue R s)
    ∧ ∀ f ∈ R, f.station = s → f.issue ≤ stationMaxIssue R s := by
  obtain ⟨f0, hf0, hs0⟩ := hex
  have hf0F : f0 ∈ R.filter (fun f => decide (f.station = s)) :=
    List.mem_filter.mpr ⟨hf0, by simp [hs0]⟩
  constructor
  · rcases foldl_max_mem_or_init
        ((R.filter (fun f => decide (f.station = s))).map (fun f => f.issue)) 0
      with hz | hm
    · have hle := foldl_max_le
        ((R.filter (fun f => decide (f.station = s))).map (fun f => f.issue)) 0
        f0.issue (List.mem_map_of_mem _ hf0F)
      refine ⟨f0, hf0, hs0, ?_⟩
      unfold stationMaxIssue
      omega
    · rw [List.mem_map] at hm
      obtain ⟨f1, hf1F, hf1i⟩ := hm
      rw [List.mem_filter] at hf1F
      refine ⟨f1, hf1F.1, by simpa using hf1F.2, ?_⟩
      unfold stationMaxIssue
      exact hf1i
  · intro f hf hs
    have hfF : f ∈ R.filter (fun f => decide (f.station = s)) :=
      List.mem_filter.mpr ⟨hf, by simp [hs]⟩
    exact foldl_max_le _ 0 _ (List.mem_map_of_mem _ hfF)

theorem mem_selectLatest (cands : List Nat) (files : List ForecastFile)
    (s : String) (t : Nat) :
    (s, t) ∈ selectLatest cands files ↔
      ((∃ f ∈ retainedFiles cands files, f.station = s)
        ∧ t = stationMaxIssue (retainedFiles cands files) s) := by
  unfold selectLatest
  rw [List.mem_map]
  constructor
  · rintro ⟨s1, hs1, heq⟩
    have h1 : s1 = s := congrArg Prod.fst heq
    have h2 : stationMaxIssue (retainedFiles cands files) s1 = t :=
      congrArg Prod.snd heq
    subst h1
    rw [List.mem_dedup, List.mem_map] at hs1
    obtain ⟨f, hf, hfs⟩ := hs1
    exact ⟨⟨f, hf, hfs⟩, h2.symm⟩
  · rintro ⟨⟨f, hf, hfs⟩, ht⟩
    refine ⟨s, ?_, ?_⟩
    · rw [List.mem_dedup, List.mem_map]
      exact ⟨f, hf, hfs⟩
    · rw [ht]

/-- Claim C4: a directory entry is retained iff its parsed issue timestamp is
in the candidate set, and each station with at least one retained file
contributes exactly one selected pair, carrying the maximum issue timestamp
among that station's retained files: membership in the selection output is
characterized by "some retained file of the station attains t and every
retained file of the station has issue at most t", and the selected station
list has no duplicates. -/
theorem forecast_selection_spec (cands : List Nat) (files : List ForecastFile) :
    (∀ f ∈ files, (f ∈ retainedFiles cands files ↔ f.issue ∈ cands))
    ∧ (∀ s t, (s, t) ∈ selectLatest cands files ↔
        ((∃ f ∈ files, f.issue ∈ cands ∧ f.station = s ∧ f.issue = t)
          ∧ ∀ f ∈ files, f.issue ∈ cands → f.station = s → f.issue ≤ t))
    ∧ ((selectLatest cands files).map Prod.fst).Nodup := by
  have hret : ∀ f, f ∈ retainedFiles cands files ↔ (f ∈ files ∧ f.issue ∈ cands) := by
    intro f
    unfold retainedFiles
    rw [List.mem_filter]
    simp
  refine ⟨fun f hf => by rw [hret f]; simp [hf], ?_, ?_⟩
  · intro s t
    rw [mem_selectLatest]
    constructor
    · rintro ⟨hex, ht⟩
      obtain ⟨hatt, hbnd⟩ :=
        stationMaxIssue_attained (retainedFiles cands files) s hex
      obtain ⟨f1, hf1, hf1s, hf1i⟩ := hatt
      have hf1' := (hret f1).mp hf1
      refine ⟨⟨f1, hf1'.1, hf1'.2, hf1s, by omega⟩, ?_⟩
      intro f hf hc hs
      have := hbnd f ((hret f).mpr ⟨hf, hc⟩) hs
      omega
    · rintro ⟨⟨f0, hf0, hc0, hs0, hit⟩, hbound⟩
      have hf0R : f0 ∈ retainedFiles cands files := (hret f0).mpr ⟨hf0, hc0⟩
      have hex : ∃ f ∈ retainedFiles cands files, f.station = s := ⟨f0, hf0R, hs0⟩
      obtain ⟨hatt, hbnd⟩ :=
        stationMaxIssue_attained (retainedFiles cands files) s hex
      obtain ⟨f1, hf1, hf1s, hf1i⟩ := hatt
      have hf1' := (hret f1).mp hf1
      have hle1 : t ≤ stationMaxIssue (retainedFiles cands files) s := by
        have := hbnd f0 hf0R hs0
        omega
      have hle2 : stationMaxIssue (retainedFiles cands files) s ≤ t := by
        have := hbound f1 hf1'.1 hf1'.2 hf1s
        omega
      exact ⟨hex, by omega⟩
  · unfold selectLatest
    rw [List.map_map]
    have hcomp : (Prod.fst ∘ fun s =>
        (s, stationMaxIssue (retainedFiles cands files) s)) = id := rfl
    rw [hcomp, List.map_id]
    exact List.nodup_dedup _

/-- Claim C4 witness: candidates {3, 5} and three files — station A issued at
3 and 5, station B issued at 7 (outside the window): (A, 5) is selected and
the station-B file is not retained. -/
theorem forecast_selection_spec_witness :
    ("A", 5) ∈ selectLatest [3, 5]
        [⟨3, "A"⟩, ⟨5, "A"⟩, ⟨7, "B"⟩]
    ∧ (⟨7, "B"⟩ : ForecastFile) ∉
        retainedFiles [3, 5] [⟨3, "A"⟩, ⟨5, "A"⟩, ⟨7, "B"⟩] :=
  ⟨((forecast_selection_spec [3, 5] [⟨3, "A"⟩, ⟨5, "A"⟩, ⟨7, "B"⟩]).2.1 "A" 5).mpr
      ⟨⟨⟨5, "A"⟩, by decide, by decide, rfl, rfl⟩, by decide⟩,
    fun hmem => absurd
      (((forecast_selection_spec [3, 5] [⟨3, "A"⟩, ⟨5, "A"⟩, ⟨7, "B"⟩]).1
          ⟨7, "B"⟩ (by decide)).mp hmem)
      (by decide)⟩

/-- Claim C10: every file path the Forecast Selector opens is rebuilt from the
selected (issue, station) pair with the fixed resolution token '60min',
series-kind token 'RFCTimeSeries' and extension 'ncdf'; the resolution parsed
from the directory listing is discarded — rewriting every listed file's
resolution token leaves the opened list unchanged — so a listed file whose
name carries any other resolution token is never itself the file opened. -/
theorem opened_names_fixed_resolution (cands : List Nat) (dir : List FileName) :
    (∀ n ∈ openedNames cands dir,
        n.resTok = "60min" ∧ n.kindTok = "RFCTimeSeries" ∧ n.extTok = "ncdf")
    ∧ (∀ g : String, openedNames cands
          (dir.map (fun m => ⟨m.dateTok, g, m.idTok, m.kindTok, m.extTok⟩))
        = openedNames cands dir)
    ∧ (∀ m ∈ dir, m.resTok ≠ "60min" → m ∉ openedNames cands dir) := by
  have hshape : ∀ n ∈ openedNames cands dir,
      n.resTok = "60min" ∧ n.kindTok = "RFCTimeSeries" ∧ n.extTok = "ncdf" := by
    intro n hn
    unfold openedNames at hn
    rw [List.mem_map] at hn
    obtain ⟨p, _, hp⟩ := hn
    rw [← hp]
    exact ⟨rfl, rfl, rfl⟩
  refine ⟨hshape, ?_, ?_⟩
  · intro g
    unfold openedNames
    rw [List.map_map]
    have hcomp : (parseName ∘ fun m : FileName =>
        (⟨m.dateTok, g, m.idTok, m.kindTok, m.extTok⟩ : FileName)) = parseName := rfl
    rw [hcomp]
  · intro m hm hres hmem
    exact hres (hshape m hmem).1

/-- Claim C10 witness: a directory holding one candidate file whose resolution
token is '30min': the opened file carries '60min' and 'ncdf', and the listed
'30min' file itself is not the opened one. -/
theorem opened_names_fixed_resolution_witness :
    ((⟨5, "60min", "ABC", "RFCTimeSeries", "ncdf"⟩ : FileName) ∈
        openedNames [5] [⟨5, "30min", "ABC", "RFCTimeSeries", "ncdf"⟩])
    ∧ (⟨5, "30min", "ABC", "RFCTimeSeries", "ncdf"⟩ : FileName) ∉
        openedNames [5] [⟨5, "30min", "ABC", "RFCTimeSeries", "ncdf"⟩] :=
  ⟨by decide,
    (opened_names_fixed_resolution [5]
        [⟨5, "30min", "ABC", "RFCTimeSeries", "ncdf"⟩]).2.2
      ⟨5, "30min", "ABC", "RFCTimeSeries", "ncdf"⟩ (by decide) (by decide)⟩

end DAForcing
